import Mathlib

/-!
Shallow embedding of the cache-dictionary lookup engine of
`src/dbms/src/Dictionaries/CacheDictionary.inc.h`
(`CacheDictionary::getItemsNumberImpl`, `CacheDictionary::getItemsString`,
`CacheDictionary::prepareAnswer`) together with proofs of the behavioural
claims about it.

Machine integers (`UInt64` keys, sizes, timestamps) are modelled as `Nat`;
none of the verified claims depends on overflow behaviour.  Wall-clock time
is an explicit `now : Nat` parameter; the pseudo-random engine is an explicit
stream `rnd : Nat → Nat` with a cursor.  The background update worker and the
update queue live outside the translated source file, so their effect is an
explicit parameter of the embedded pipelines: `room : Bool` tells whether
`tryPushToUpdateQueueOrThrow` succeeds, and the state after
`waitForCurrentUpdateFinish` is the parameter `post` together with the
per-key `found_ids_mask` function `mask`.
-/

set_option maxHeartbeats 1000000

namespace CacheDict

/-- Dictionary key type (`UInt64 Key` in the source); per the spec, `0` is the
reserved marker of a never-occupied cell. -/
abbrev Key := Nat

/-- A `std::chrono::system_clock::time_point`; `max` is the
`time_point::max()` never-expires sentinel. -/
inductive TimePoint where
  | fin (t : Nat)
  | max
  deriving DecidableEq, Repr

/-- The `expires_at > now` test that decides cell validity. -/
def TimePoint.gtNow : TimePoint → Nat → Bool
  | .max, _ => true
  | .fin t, now => decide (now < t)

/-- One cache slot (`CellMetadata` in the source header): resident key,
expiry time point and the deleted/default flag. -/
structure Cell where
  id : Key
  expires_at : TimePoint
  is_default : Bool
  deriving DecidableEq, Repr

/-- One dictionary attribute: its null value and the per-slot payload array
(`attribute.arrays` indexed by `cell_idx`). -/
structure Attribute (α : Type) where
  null_value : α
  arr : List α
  deriving DecidableEq, Repr

/-- `DictionaryLifetime`: the configured TTL range `[min_sec, max_sec]`. -/
structure DictLifetime where
  min_sec : Nat
  max_sec : Nat
  deriving DecidableEq, Repr

/-- The mutable state of one `CacheDictionary` instance that the translated
code touches: the cell table, the attribute payload arrays (numeric and
string ones modelled separately), the `element_count` counter, the TTL
configuration, the hash function and the pseudo-random engine (modelled as a
stream of draws plus a cursor). -/
structure CacheState where
  cells : List Cell
  hashF : Key → Nat
  lifetime : DictLifetime
  element_count : Nat
  rnd : Nat → Nat
  rnd_pos : Nat
  numAttrs : List (Attribute Int)
  strAttrs : List (Attribute String)

/-- Read a cell; out-of-range reads return the never-occupied cell. -/
def cellAt (st : CacheState) (idx : Nat) : Cell :=
  st.cells.getD idx ⟨0, TimePoint.fin 0, false⟩

/-- The payload array of the numeric attribute being read
(`attribute_array` in `getItemsNumberImpl`). -/
def arrOf (st : CacheState) (attrIdx : Nat) : List Int :=
  (st.numAttrs.getD attrIdx ⟨0, []⟩).arr

/-- The payload array of the string attribute being read
(`attribute_array` in `getItemsString`). -/
def strArrOf (st : CacheState) (attrIdx : Nat) : List String :=
  (st.strAttrs.getD attrIdx ⟨"", []⟩).arr

/-- The special slot that legitimately stores key `0`
(`zero_cell_idx` in the source header): the slot key `0` hashes to. -/
def zeroCellIdx (st : CacheState) : Nat :=
  st.hashF 0 % st.cells.length

/-- Result of `findCellIdx`: `valid` = fresh hit, `outdated` = the key is
resident but expired, neither = not found; `cell_idx` is the slot the key
maps to in every case. -/
structure FindResult where
  valid : Bool
  outdated : Bool
  cell_idx : Nat
  deriving DecidableEq, Repr

/-- Modelled from the spec: `findCellIdx` is declared in `CacheDictionary.h`,
which is not part of the sources.  Spec §4.1: `slot = hash(key) mod N`; if
`cells[slot].key == key` the result is valid iff `expires_at > now` and
outdated otherwise; if the resident key differs the key is not found
(neither valid nor outdated); `slot` is returned in every case. -/
def findCellIdx (st : CacheState) (key : Key) (now : Nat) : FindResult :=
  let slot := st.hashF key % st.cells.length
  let cell := cellAt st slot
  if cell.id = key then
    if cell.expires_at.gtNow now then ⟨true, false, slot⟩
    else ⟨false, true, slot⟩
  else ⟨false, false, slot⟩

/-- `cache_expired_ids[id].push_back(row)` on the grouping maps
`std::unordered_map<Key, std::vector<size_t>>`: append `row` to the group of
`k`, creating the group if absent. -/
def pushRow : List (Key × List Nat) → Key → Nat → List (Key × List Nat)
  | [], k, row => [(k, [row])]
  | (k', rs) :: rest, k, row =>
      if k' = k then (k, rs ++ [row]) :: rest
      else (k', rs) :: pushRow rest k row

/-- The group of rows recorded for key `k` (empty when `k` has no group). -/
def rowsOf : List (Key × List Nat) → Key → List Nat
  | [], _ => []
  | (k', rs) :: rest, k => if k' = k then rs else rowsOf rest k

/-- Accumulator of the classify pass of `getItemsNumberImpl`: the output
rows written so far, the two grouping maps and the `cache_hit` counter. -/
structure NumClassify where
  out : List (Option Int)
  cache_expired_ids : List (Key × List Nat)
  cache_not_found_ids : List (Key × List Nat)
  hits : Nat

/-- `update_routine` of `getItemsNumberImpl`:
`out[row] = cell.isDefault() ? get_default(row) : attribute_array[cell_idx]`. -/
def routineVal (st : CacheState) (arr : List Int) (gd : Nat → Int)
    (row idx : Nat) : Int :=
  if (cellAt st idx).is_default then gd row else arr.getD idx 0

/-- One iteration of the classify loop of `getItemsNumberImpl` (source
lines 57-94): valid → write the value and count a hit; outdated → record the
row in `cache_expired_ids` and, when `allow_read_expired_keys`, also write
the stale value; otherwise record the row in `cache_not_found_ids`. -/
def classifyStep (st : CacheState) (arr : List Int) (now : Nat)
    (gd : Nat → Int) (ar : Bool) (id : Key) (row : Nat)
    (acc : NumClassify) : NumClassify :=
  let fr := findCellIdx st id now
  if fr.valid then
    { acc with out := acc.out ++ [some (routineVal st arr gd row fr.cell_idx)],
               hits := acc.hits + 1 }
  else if fr.outdated then
    { acc with out := acc.out ++
                [if ar then some (routineVal st arr gd row fr.cell_idx) else none],
               cache_expired_ids := pushRow acc.cache_expired_ids id row }
  else
    { acc with out := acc.out ++ [none],
               cache_not_found_ids := pushRow acc.cache_not_found_ids id row }

/-- The per-row classify loop of `getItemsNumberImpl` (source lines 52-95),
recursing over the remaining keys with the current row index. -/
def classifyNumGo (st : CacheState) (arr : List Int) (now : Nat)
    (gd : Nat → Int) (ar : Bool) :
    List Key → Nat → NumClassify → NumClassify
  | [], _, acc => acc
  | id :: rest, row, acc =>
      classifyNumGo st arr now gd ar rest (row + 1)
        (classifyStep st arr now gd ar id row acc)

/-- The whole classify pass of `getItemsNumberImpl`, starting from the empty
maps and an empty output. -/
def classifyNum (st : CacheState) (arr : List Int) (now : Nat)
    (gd : Nat → Int) (ar : Bool) (ids : List Key) : NumClassify :=
  classifyNumGo st arr now gd ar ids 0 ⟨[], [], [], 0⟩

/-- Closed form of the output entry the classify pass writes for one row. -/
def outEntry (st : CacheState) (arr : List Int) (now : Nat) (gd : Nat → Int)
    (ar : Bool) (row : Nat) (id : Key) : Option Int :=
  let fr := findCellIdx st id now
  if fr.valid then some (routineVal st arr gd row fr.cell_idx)
  else if fr.outdated && ar then some (routineVal st arr gd row fr.cell_idx)
  else none

/-- Map a row-indexed function over a key list, starting at a given row. -/
def mapWithRow (f : Nat → Key → α) : Nat → List Key → List α
  | _, [] => []
  | row, id :: rest => f row id :: mapWithRow f (row + 1) rest

/-- `expired` classification of a key: resident but expired. -/
def expiredClass (st : CacheState) (now : Nat) (k : Key) : Bool :=
  !(findCellIdx st k now).valid && (findCellIdx st k now).outdated

/-- `not found` classification of a key: not resident at its slot. -/
def notFoundClass (st : CacheState) (now : Nat) (k : Key) : Bool :=
  !(findCellIdx st k now).valid && !(findCellIdx st k now).outdated

/-- The ordered list of rows (starting at `row`) of the remaining keys whose
key equals `k` and whose classification satisfies `p`. -/
def classRows (p : Key → Bool) (k : Key) : Nat → List Key → List Nat
  | _, [] => []
  | row, id :: rest =>
      if id = k ∧ p id = true then row :: classRows p k (row + 1) rest
      else classRows p k (row + 1) rest

theorem rowsOf_pushRow_same (m : List (Key × List Nat)) (k : Key) (row : Nat) :
    rowsOf (pushRow m k row) k = rowsOf m k ++ [row] := by
  induction m with
  | nil => simp [pushRow, rowsOf]
  | cons p rest ih =>
      obtain ⟨k', rs⟩ := p
      by_cases h : k' = k
      · simp [pushRow, rowsOf, h]
      · simp [pushRow, rowsOf, h, ih]

theorem rowsOf_pushRow_ne (m : List (Key × List Nat)) (k k' : Key) (row : Nat)
    (h : k' ≠ k) : rowsOf (pushRow m k row) k' = rowsOf m k' := by
  have h2 : ¬ k = k' := fun hh => h hh.symm
  induction m with
  | nil => simp [pushRow, rowsOf, h2]
  | cons p rest ih =>
      obtain ⟨k₀, rs⟩ := p
      by_cases h0 : k₀ = k
      · subst h0
        simp [pushRow, rowsOf, h2]
      · simp only [pushRow, if_neg h0]
        by_cases h1 : k₀ = k'
        · simp [rowsOf, h1]
        · simp [rowsOf, h1, ih]

theorem classifyStep_valid (st : CacheState) (arr : List Int) (now : Nat)
    (gd : Nat → Int) (ar : Bool) (id : Key) (row : Nat) (acc : NumClassify)
    (hv : (findCellIdx st id now).valid = true) :
    classifyStep st arr now gd ar id row acc
      = { acc with
          out := acc.out ++ [some (routineVal st arr gd row (findCellIdx st id now).cell_idx)],
          hits := acc.hits + 1 } := by
  simp [classifyStep, hv]

theorem classifyStep_outdated (st : CacheState) (arr : List Int) (now : Nat)
    (gd : Nat → Int) (ar : Bool) (id : Key) (row : Nat) (acc : NumClassify)
    (hv : (findCellIdx st id now).valid = false)
    (ho : (findCellIdx st id now).outdated = true) :
    classifyStep st arr now gd ar id row acc
      = { acc with
          out := acc.out ++
            [if ar then some (routineVal st arr gd row (findCellIdx st id now).cell_idx) else none],
          cache_expired_ids := pushRow acc.cache_expired_ids id row } := by
  simp [classifyStep, hv, ho]

theorem classifyStep_notFound (st : CacheState) (arr : List Int) (now : Nat)
    (gd : Nat → Int) (ar : Bool) (id : Key) (row : Nat) (acc : NumClassify)
    (hv : (findCellIdx st id now).valid = false)
    (ho : (findCellIdx st id now).outdated = false) :
    classifyStep st arr now gd ar id row acc
      = { acc with
          out := acc.out ++ [none],
          cache_not_found_ids := pushRow acc.cache_not_found_ids id row } := by
  simp [classifyStep, hv, ho]

/-- Closed form of the grouping maps and the output of the classify loop. -/
theorem classifyNumGo_spec (st : CacheState) (arr : List Int) (now : Nat)
    (gd : Nat → Int) (ar : Bool) (l : List Key) (row : Nat)
    (acc : NumClassify) :
    (classifyNumGo st arr now gd ar l row acc).out
        = acc.out ++ mapWithRow (outEntry st arr now gd ar) row l
    ∧ (∀ k, rowsOf (classifyNumGo st arr now gd ar l row acc).cache_expired_ids k
        = rowsOf acc.cache_expired_ids k
          ++ classRows (expiredClass st now) k row l)
    ∧ (∀ k, rowsOf (classifyNumGo st arr now gd ar l row acc).cache_not_found_ids k
        = rowsOf acc.cache_not_found_ids k
          ++ classRows (notFoundClass st now) k row l) := by
  induction l generalizing row acc with
  | nil => simp [classifyNumGo, mapWithRow, classRows]
  | cons id rest ih =>
      have hgo : classifyNumGo st arr now gd ar (id :: rest) row acc
          = classifyNumGo st arr now gd ar rest (row + 1)
              (classifyStep st arr now gd ar id row acc) := rfl
      by_cases hv : (findCellIdx st id now).valid = true
      · rw [hgo, classifyStep_valid st arr now gd ar id row acc hv]
        obtain ⟨h1, h2, h3⟩ := ih (row + 1)
          { acc with out := acc.out ++ [some (routineVal st arr gd row (findCellIdx st id now).cell_idx)],
                     hits := acc.hits + 1 }
        have hexp : expiredClass st now id = false := by simp [expiredClass, hv]
        have hnf : notFoundClass st now id = false := by simp [notFoundClass, hv]
        refine ⟨?_, fun k => ?_, fun k => ?_⟩
        · rw [h1]; simp [mapWithRow, outEntry, hv]
        · rw [h2 k]; by_cases hk : id = k
          · subst hk; simp [classRows, hexp]
          · simp [classRows, hk]
        · rw [h3 k]; by_cases hk : id = k
          · subst hk; simp [classRows, hnf]
          · simp [classRows, hk]
      · replace hv : (findCellIdx st id now).valid = false := by
          simpa using hv
        by_cases ho : (findCellIdx st id now).outdated = true
        · rw [hgo, classifyStep_outdated st arr now gd ar id row acc hv ho]
          obtain ⟨h1, h2, h3⟩ := ih (row + 1)
            { acc with out := acc.out ++
                        [if ar then some (routineVal st arr gd row (findCellIdx st id now).cell_idx) else none],
                       cache_expired_ids := pushRow acc.cache_expired_ids id row }
          have hexp : expiredClass st now id = true := by
            simp [expiredClass, hv, ho]
          have hnf : notFoundClass st now id = false := by
            simp [notFoundClass, hv, ho]
          refine ⟨?_, fun k => ?_, fun k => ?_⟩
          · rw [h1]
            by_cases har : ar = true
            · simp [mapWithRow, outEntry, hv, ho, har]
            · replace har : ar = false := by simpa using har
              simp [mapWithRow, outEntry, hv, ho, har]
          · rw [h2 k]; by_cases hk : id = k
            · subst hk
              rw [rowsOf_pushRow_same]
              simp [classRows, hexp]
            · have hk' : k ≠ id := fun hh => hk hh.symm
              rw [rowsOf_pushRow_ne _ _ _ _ hk']
              simp [classRows, hk]
          · rw [h3 k]; by_cases hk : id = k
            · subst hk; simp [classRows, hnf]
            · simp [classRows, hk]
        · replace ho : (findCellIdx st id now).outdated = false := by
            simpa using ho
          rw [hgo, classifyStep_notFound st arr now gd ar id row acc hv ho]
          obtain ⟨h1, h2, h3⟩ := ih (row + 1)
            { acc with out := acc.out ++ [none],
                       cache_not_found_ids := pushRow acc.cache_not_found_ids id row }
          have hexp : expiredClass st now id = false := by
            simp [expiredClass, hv, ho]
          have hnf : notFoundClass st now id = true := by
            simp [notFoundClass, hv, ho]
          refine ⟨?_, fun k => ?_, fun k => ?_⟩
          · rw [h1]; simp [mapWithRow, outEntry, hv, ho]
          · rw [h2 k]; by_cases hk : id = k
            · subst hk; simp [classRows, hexp]
            · simp [classRows, hk]
          · rw [h3 k]; by_cases hk : id = k
            · subst hk
              rw [rowsOf_pushRow_same]
              simp [classRows, hnf]
            · have hk' : k ≠ id := fun hh => hk hh.symm
              rw [rowsOf_pushRow_ne _ _ _ _ hk']
              simp [classRows, hk]

/-- One draw of `std::uniform_int_distribution<UInt64>{lo, hi}` applied to
the raw engine output `r`: some value of `[lo, hi]` (for `lo ≤ hi`),
modelled as `lo + r % (hi - lo + 1)`. -/
def uniformDraw (lo hi r : Nat) : Nat := lo + r % (hi - lo + 1)

/-- The expiry `prepareAnswer` assigns to a cell it takes over (source lines
395-401): `now` plus a TTL draw when `min_sec != 0 && max_sec != 0`, the
`time_point::max()` sentinel otherwise. -/
def newExpiresAt (st : CacheState) (now : Nat) : TimePoint :=
  if st.lifetime.min_sec ≠ 0 ∧ st.lifetime.max_sec ≠ 0 then
    TimePoint.fin (now + uniformDraw st.lifetime.min_sec st.lifetime.max_sec
      (st.rnd st.rnd_pos))
  else TimePoint.max

/-- One iteration of the `prepareAnswer` loop (source lines 351-410) for one
requested id, threading the cache state and the caller's accumulator: if the
id's `found_ids_mask` entry is set, only `on_cell_updated` runs (against the
current state, since the C++ handler reads the live `attribute_array`);
otherwise the cell is taken over: `element_count` is bumped when the slot
was never occupied (stored id `0` and not the zero slot), `cell.id` is set,
the expiry is assigned, the whole cell is marked default, every attribute's
payload at that slot is reset to its null value, and `on_id_not_found`
runs. -/
def prepareAnswerStep {σ : Type} (now : Nat) (mask : Key → Bool)
    (onUpd : Key → Nat → CacheState → σ → σ)
    (onNF : Key → Nat → σ → σ)
    (p : CacheState × σ) (id : Key) : CacheState × σ :=
  let st := p.1
  let fr := findCellIdx st id now
  let idx := fr.cell_idx
  let cell := cellAt st idx
  if mask id then (st, onUpd id idx st p.2)
  else
    let ec := if cell.id = 0 ∧ idx ≠ zeroCellIdx st then st.element_count + 1
              else st.element_count
    let pos' := if st.lifetime.min_sec ≠ 0 ∧ st.lifetime.max_sec ≠ 0 then
                  st.rnd_pos + 1
                else st.rnd_pos
    let st' : CacheState :=
      { st with
        cells := st.cells.set idx ⟨id, newExpiresAt st now, true⟩,
        numAttrs := st.numAttrs.map (fun a => { a with arr := a.arr.set idx a.null_value }),
        strAttrs := st.strAttrs.map (fun a => { a with arr := a.arr.set idx a.null_value }),
        element_count := ec,
        rnd_pos := pos' }
    (st', onNF id idx p.2)

/-- The `prepareAnswer` loop over the requested ids. -/
def prepareAnswerGo {σ : Type} (now : Nat) (mask : Key → Bool)
    (onUpd : Key → Nat → CacheState → σ → σ)
    (onNF : Key → Nat → σ → σ) :
    CacheState × σ → List Key → CacheState × σ
  | p, [] => p
  | p, id :: rest =>
      prepareAnswerGo now mask onUpd onNF
        (prepareAnswerStep now mask onUpd onNF p id) rest

/-- `CacheDictionary::prepareAnswer` (source lines 342-411): iterate over
the update unit's requested ids against the post-update cache state. -/
def prepareAnswer {σ : Type} (st : CacheState) (now : Nat)
    (requested_ids : List Key) (mask : Key → Bool)
    (onUpd : Key → Nat → CacheState → σ → σ)
    (onNF : Key → Nat → σ → σ) (acc : σ) : CacheState × σ :=
  prepareAnswerGo now mask onUpd onNF (st, acc) requested_ids

/-- Result of one batch lookup: either the output rows or the
`CACHE_DICTIONARY_UPDATE_QUEUE_IS_FULL` exception thrown by
`tryPushToUpdateQueueOrThrow` escaping to the caller. -/
inductive LookupResult (α : Type) where
  | ok (out : α)
  | queueFull
  deriving DecidableEq, Repr

/-- Observable outcome of one batch lookup: its result, the update units
pushed to the update queue, and whether the caller blocked on
`waitForCurrentUpdateFinish` and ran `prepareAnswer`. -/
structure Outcome (α : Type) where
  result : LookupResult α
  pushed : List (List Key)
  waited : Bool
  ranPrepare : Bool
  deriving DecidableEq, Repr

/-- Write `out[r] = f r` for each row `r` of a group, in order (the
`for (const size_t row : ...) out[row] = ...` loops of the handlers). -/
def writeRows : List (Option Int) → List Nat → (Nat → Int) → List (Option Int)
  | out, [], _ => out
  | out, r :: rest, f => writeRows (out.set r (some (f r))) rest f

/-- `on_cell_updated` of `getItemsNumberImpl` (source lines 144-153): read
`attribute_array[cell_idx]` once from the live state and write it to every
recorded row of the id, in both grouping maps. -/
def numOnUpd (attrIdx : Nat) (c : NumClassify) :
    Key → Nat → CacheState → List (Option Int) → List (Option Int) :=
  fun id idx stNow out =>
    let v : Int := (arrOf stNow attrIdx).getD idx 0
    writeRows (writeRows out (rowsOf c.cache_not_found_ids id) (fun _ => v))
      (rowsOf c.cache_expired_ids id) (fun _ => v)

/-- `on_id_not_found` of `getItemsNumberImpl` (source lines 155-162): write
`get_default(row)` to every recorded row of the id, in both grouping maps. -/
def numOnNF (gd : Nat → Int) (c : NumClassify) :
    Key → Nat → List (Option Int) → List (Option Int) :=
  fun id _ out =>
    writeRows (writeRows out (rowsOf c.cache_not_found_ids id) gd)
      (rowsOf c.cache_expired_ids id) gd

/-- `CacheDictionary::getItemsNumberImpl` (source lines 39-167).  After the
classify pass: if nothing needs an update, return; if only expired keys
remain and stale reads are allowed, push one update unit with the distinct
expired keys and return the already-written stale values without waiting;
otherwise push one unit with the not-found keys followed by the expired
keys, block on its completion and run `prepareAnswer`.  A full queue makes
`tryPushToUpdateQueueOrThrow` throw on either path; nothing catches the
exception inside this function.  `post`/`mask` stand for the cache state
and `found_ids_mask` after the background update finished, `now2` for the
clock read inside `prepareAnswer`. -/
def getItemsNumberImpl (st : CacheState) (attrIdx : Nat) (now now2 : Nat)
    (ids : List Key) (gd : Nat → Int) (ar room : Bool)
    (post : CacheState) (mask : Key → Bool) : Outcome (List (Option Int)) :=
  let c := classifyNum st (arrOf st attrIdx) now gd ar ids
  if c.cache_not_found_ids.isEmpty && c.cache_expired_ids.isEmpty then
    ⟨.ok c.out, [], false, false⟩
  else if c.cache_not_found_ids.isEmpty && ar then
    let required_expired_ids := c.cache_expired_ids.map (·.1)
    if room then ⟨.ok c.out, [required_expired_ids], false, false⟩
    else ⟨.queueFull, [], false, false⟩
  else
    let required_ids := c.cache_not_found_ids.map (·.1)
        ++ c.cache_expired_ids.map (·.1)
    if room then
      let r := prepareAnswerGo now2 mask (numOnUpd attrIdx c) (numOnNF gd c)
        (post, c.out) required_ids
      ⟨.ok r.2, [required_ids], true, true⟩
    else ⟨.queueFull, [], false, false⟩

/-- `map[id] = s` on the `std::unordered_map<Key, String> map` of
`getItemsString`: replace the entry for `id` or add one. -/
def mapInsert : List (Key × String) → Key → String → List (Key × String)
  | [], k, s => [(k, s)]
  | (k', s') :: rest, k, s =>
      if k' = k then (k, s) :: rest
      else (k', s') :: mapInsert rest k s

/-- `map.find(id)` on the per-call string map. -/
def mapLookup : List (Key × String) → Key → Option String
  | [], _ => none
  | (k', s') :: rest, k => if k' = k then some s' else mapLookup rest k

/-- The string read by both string passes:
`cell.isDefault() ? get_default(row) : attribute_array[cell_idx]`. -/
def strVal (st : CacheState) (sarr : List String) (gd : Nat → String)
    (row idx : Nat) : String :=
  if (cellAt st idx).is_default then gd row else sarr.getD idx ""

/-- `insert_value_routine` of the grouped string pass (source lines
240-250), restricted to its effect on `map`: store the cell's string for
non-default cells (default cells leave `map` alone, so the final loop falls
back to `get_default`). -/
def strInsertRoutine (st : CacheState) (sarr : List String) (id : Key)
    (idx : Nat) (m : List (Key × String)) : List (Key × String) :=
  if (cellAt st idx).is_default then m else mapInsert m id (sarr.getD idx "")

/-- Accumulator of the grouped classify pass of `getItemsString`. -/
structure StrClassify where
  cache_expired_ids : List (Key × List Nat)
  cache_not_found_ids : List (Key × List Nat)
  map : List (Key × String)
  hits : Nat

/-- One iteration of the grouped classify pass of `getItemsString`
(source lines 233-267). -/
def classifyStrStep (st : CacheState) (sarr : List String) (now : Nat)
    (ar : Bool) (id : Key) (row : Nat) (acc : StrClassify) : StrClassify :=
  let fr := findCellIdx st id now
  if fr.valid then
    { acc with map := strInsertRoutine st sarr id fr.cell_idx acc.map,
               hits := acc.hits + 1 }
  else if fr.outdated then
    { acc with cache_expired_ids := pushRow acc.cache_expired_ids id row,
               map := if ar then strInsertRoutine st sarr id fr.cell_idx acc.map
                      else acc.map }
  else
    { acc with cache_not_found_ids := pushRow acc.cache_not_found_ids id row }

/-- The grouped classify loop of `getItemsString`. -/
def classifyStrGo (st : CacheState) (sarr : List String) (now : Nat)
    (ar : Bool) : List Key → Nat → StrClassify → StrClassify
  | [], _, acc => acc
  | id :: rest, row, acc =>
      classifyStrGo st sarr now ar rest (row + 1)
        (classifyStrStep st sarr now ar id row acc)

/-- The whole grouped classify pass of `getItemsString`. -/
def classifyStr (st : CacheState) (sarr : List String) (now : Nat)
    (ar : Bool) (ids : List Key) : StrClassify :=
  classifyStrGo st sarr now ar ids 0 ⟨[], [], [], 0⟩

/-- The optimistic first pass of `getItemsString` (source lines 184-207):
stream the value of every key straight into the output, aborting with
`none` on the first key whose `findCellIdx` result is not valid. -/
def optimisticGo (st : CacheState) (sarr : List String) (now : Nat)
    (gd : Nat → String) : List Key → Nat → List String → Option (List String)
  | [], _, acc => some acc
  | id :: rest, row, acc =>
      let fr := findCellIdx st id now
      if fr.valid then
        optimisticGo st sarr now gd rest (row + 1)
          (acc ++ [strVal st sarr gd row fr.cell_idx])
      else none

/-- `on_cell_updated` of `getItemsString` (source lines 308-314), restricted
to its effect on `map`: store the freshly merged string read from the live
attribute array. -/
def strOnUpd (attrIdx : Nat) :
    Key → Nat → CacheState → List (Key × String) → List (Key × String) :=
  fun id idx stNow m => mapInsert m id ((strArrOf stNow attrIdx).getD idx "")

/-- `on_id_not_found` of `getItemsString` (source lines 316-320): it only
adjusts `total_length` (a capacity hint for a `reserve` call), so its effect
on `map` is the identity; the final loop then serves `get_default`. -/
def strOnNF : Key → Nat → List (Key × String) → List (Key × String) :=
  fun _ _ m => m

/-- The final output loop of `getItemsString` (source lines 331-338):
for every row serve the mapped string, or `get_default(row)` when the key
has no map entry. -/
def finalOut (m : List (Key × String)) (gd : Nat → String) :
    Nat → List Key → List String
  | _, [] => []
  | row, id :: rest => (mapLookup m id).getD (gd row) :: finalOut m gd (row + 1) rest

/-- The grouped (pessimistic) algorithm of `getItemsString` (source lines
217-338): classify with grouping maps; when only expired keys remain and
stale reads are allowed, push one update unit with the distinct expired keys
and fall through; when some key is genuinely absent, push one unit, block
and run `prepareAnswer`; finally rebuild the whole output from `map`. -/
def stringGroupedCore (st : CacheState) (attrIdx : Nat) (now now2 : Nat)
    (ids : List Key) (gd : Nat → String) (ar room : Bool)
    (post : CacheState) (mask : Key → Bool) : Outcome (List String) :=
  let c := classifyStr st (strArrOf st attrIdx) now ar ids
  if c.cache_not_found_ids.isEmpty then
    if ar && !c.cache_expired_ids.isEmpty then
      let required_expired_ids := c.cache_expired_ids.map (·.1)
      if room then
        ⟨.ok (finalOut c.map gd 0 ids), [required_expired_ids], false, false⟩
      else ⟨.queueFull, [], false, false⟩
    else ⟨.ok (finalOut c.map gd 0 ids), [], false, false⟩
  else
    let required_ids := c.cache_not_found_ids.map (·.1)
        ++ c.cache_expired_ids.map (·.1)
    if room then
      let r := prepareAnswerGo now2 mask (strOnUpd attrIdx) strOnNF
        (post, c.map) required_ids
      ⟨.ok (finalOut r.2 gd 0 ids), [required_ids], true, true⟩
    else ⟨.queueFull, [], false, false⟩

/-- `CacheDictionary::getItemsString` (source lines 169-339): run the
optimistic pass first; on success return its streamed output directly
(`found_outdated_values` stays false), otherwise discard the partial output
and run the grouped algorithm. -/
def getItemsString (st : CacheState) (attrIdx : Nat) (now now2 : Nat)
    (ids : List Key) (gd : Nat → String) (ar room : Bool)
    (post : CacheState) (mask : Key → Bool) : Outcome (List String) :=
  match optimisticGo st (strArrOf st attrIdx) now gd ids 0 [] with
  | some out => ⟨.ok out, [], false, false⟩
  | none => stringGroupedCore st attrIdx now now2 ids gd ar room post mask

/-- The two modes of `rw_lock` (`ProfilingScopedReadRWLock` versus
`ProfilingScopedWriteRWLock`). -/
inductive LockKind where
  | read
  | write
  deriving DecidableEq, Repr

/-- The lock the classify passes acquire (source lines 53, 185, 230):
`ProfilingScopedReadRWLock` timed under `DictCacheLockReadNs`, i.e. the
read side. -/
def classifyLockAcquired : LockKind := LockKind.read

/-- The lock `prepareAnswer` acquires for its whole loop (source line 348):
`ProfilingScopedReadRWLock` timed under `DictCacheLockReadNs`, i.e. the
read side — even though the loop mutates cells and attribute payloads. -/
def prepareAnswerLockAcquired : LockKind := LockKind.read

theorem get?_set {α : Type} (l : List α) (i j : Nat) (x : α) :
    (l.set i x).get? j = if i = j ∧ j < l.length then some x else l.get? j := by
  induction l generalizing i j with
  | nil => simp
  | cons a t ih =>
      cases i with
      | zero =>
          cases j with
          | zero => simp
          | succ j => simp [List.set]
      | succ i =>
          cases j with
          | zero => simp [List.set]
          | succ j =>
              simp only [List.set, List.get?_cons_succ, List.length_cons, ih]
              by_cases h : i = j ∧ j < t.length
              · rw [if_pos h, if_pos ⟨by omega, by omega⟩]
              · rw [if_neg h, if_neg (by omega)]

theorem writeRows_length (out : List (Option Int)) (rows : List Nat)
    (f : Nat → Int) : (writeRows out rows f).length = out.length := by
  induction rows generalizing out with
  | nil => simp [writeRows]
  | cons r rest ih => simp [writeRows, ih]

theorem get?_writeRows (out : List (Option Int)) (rows : List Nat)
    (f : Nat → Int) (r : Nat) :
    (writeRows out rows f).get? r
      = if r ∈ rows ∧ r < out.length then some (some (f r)) else out.get? r := by
  induction rows generalizing out with
  | nil => simp [writeRows]
  | cons r0 rest ih =>
      simp only [writeRows]
      rw [ih]
      simp only [List.length_set]
      by_cases h1 : r ∈ rest ∧ r < out.length
      · rw [if_pos h1, if_pos ⟨List.mem_cons_of_mem _ h1.1, h1.2⟩]
      · rw [if_neg h1, get?_set]
        by_cases h2 : r0 = r ∧ r < out.length
        · rw [if_pos h2, if_pos ⟨by simp [← h2.1], h2.2⟩, h2.1]
        · rw [if_neg h2, if_neg ?_]
          simp only [List.mem_cons]
          rintro ⟨hc1 | hc1, hc2⟩
          · exact h2 ⟨hc1.symm, hc2⟩
          · exact h1 ⟨hc1, hc2⟩

theorem mapWithRow_length {α : Type} (f : Nat → Key → α) (row : Nat)
    (l : List Key) : (mapWithRow f row l).length = l.length := by
  induction l generalizing row with
  | nil => simp [mapWithRow]
  | cons id rest ih => simp [mapWithRow, ih]

theorem get?_mapWithRow {α : Type} (f : Nat → Key → α) (row j : Nat)
    (l : List Key) :
    (mapWithRow f row l).get? j = (l.get? j).map (fun k => f (row + j) k) := by
  induction l generalizing row j with
  | nil => simp [mapWithRow]
  | cons id rest ih =>
      cases j with
      | zero => simp [mapWithRow]
      | succ j =>
          simp only [mapWithRow, List.get?_cons_succ, ih]
          have : row + (j + 1) = row + 1 + j := by omega
          rw [this]

theorem mem_classRows (p : Key → Bool) (k : Key) (l : List Key) (row r : Nat) :
    r ∈ classRows p k row l
      ↔ ∃ j, l.get? j = some k ∧ p k = true ∧ r = row + j := by
  induction l generalizing row with
  | nil => simp [classRows]
  | cons id rest ih =>
      simp only [classRows]
      by_cases h : id = k ∧ p id = true
      · obtain ⟨h1, h2⟩ := h
        subst h1
        rw [if_pos ⟨rfl, h2⟩]
        constructor
        · intro hm
          rcases List.mem_cons.1 hm with hm | hm
          · exact ⟨0, by simp, h2, by omega⟩
          · obtain ⟨j, hj1, hj2, hj3⟩ := (ih (row + 1)).1 hm
            exact ⟨j + 1, by simpa using hj1, hj2, by omega⟩
        · rintro ⟨j, hj1, hj2, hj3⟩
          cases j with
          | zero => exact List.mem_cons.2 (Or.inl (by omega))
          | succ j =>
              refine List.mem_cons.2 (Or.inr ((ih (row + 1)).2 ?_))
              exact ⟨j, by simpa using hj1, hj2, by omega⟩
      · rw [if_neg h, ih (row + 1)]
        constructor
        · rintro ⟨j, hj1, hj2, hj3⟩
          exact ⟨j + 1, by simpa using hj1, hj2, by omega⟩
        · rintro ⟨j, hj1, hj2, hj3⟩
          cases j with
          | zero =>
              exfalso
              apply h
              have : id = k := by simpa using hj1
              exact ⟨this, this ▸ hj2⟩
          | succ j => exact ⟨j, by simpa using hj1, hj2, by omega⟩

theorem mem_classRows_zero (p : Key → Bool) (k : Key) (l : List Key) (r : Nat) :
    r ∈ classRows p k 0 l ↔ l.get? r = some k ∧ p k = true := by
  rw [mem_classRows]
  constructor
  · rintro ⟨j, hj1, hj2, hj3⟩
    have : r = j := by omega
    exact ⟨this ▸ hj1, hj2⟩
  · rintro ⟨h1, h2⟩
    exact ⟨r, h1, h2, by omega⟩

theorem classRows_false (p : Key → Bool) (k : Key) (l : List Key) (row : Nat)
    (hp : p k = false) : classRows p k row l = [] := by
  induction l generalizing row with
  | nil => simp [classRows]
  | cons id rest ih =>
      simp only [classRows]
      rw [if_neg, ih]
      rintro ⟨h1, h2⟩
      subst h1
      simp [hp] at h2

theorem rowsOf_ne_nil_mem_keys (m : List (Key × List Nat)) (k : Key)
    (h : rowsOf m k ≠ []) : k ∈ m.map Prod.fst := by
  induction m with
  | nil => simp [rowsOf] at h
  | cons p rest ih =>
      obtain ⟨k', rs⟩ := p
      by_cases hk : k' = k
      · simp [hk]
      · simp only [rowsOf, if_neg hk] at h
        simp only [List.map_cons]
        exact List.mem_cons_of_mem _ (ih h)

theorem mem_keys_rowsOf_ne_nil (m : List (Key × List Nat)) (k : Key)
    (hne : ∀ p ∈ m, p.2 ≠ []) (h : k ∈ m.map Prod.fst) : rowsOf m k ≠ [] := by
  induction m with
  | nil => simp at h
  | cons p rest ih =>
      obtain ⟨k', rs⟩ := p
      by_cases hk : k' = k
      · subst hk
        simp only [rowsOf, if_pos rfl]
        exact hne (k', rs) (by simp)
      · simp only [rowsOf, if_neg hk]
        have hm : k = k' ∨ ∃ x, (k, x) ∈ rest := by simpa using h
        rcases hm with h' | ⟨x, hx⟩
        · exact absurd h'.symm hk
        · have hk2 : k ∈ rest.map Prod.fst := List.mem_map.2 ⟨(k, x), hx, rfl⟩
          exact ih (fun q hq => hne q (List.mem_cons_of_mem _ hq)) hk2

/-! ### Concrete fixtures for witnesses and counterexamples -/

/-- A two-slot cache whose slot 1 holds key `5` with a real (non-default)
payload `7` / `"a"` that expires at time `10`; identity hash; TTL range
`[30, 60]`; next engine draw `7`. -/
def stW : CacheState :=
  { cells := [⟨0, TimePoint.fin 0, false⟩, ⟨5, TimePoint.fin 10, false⟩]
    hashF := fun k => k
    lifetime := ⟨30, 60⟩
    element_count := 0
    rnd := fun _ => 7
    rnd_pos := 0
    numAttrs := [⟨0, [0, 7]⟩]
    strAttrs := [⟨"", ["", "a"]⟩] }

/-- Like `stW` but with the TTL range `[0, 5]`: only one bound is zero. -/
def stZ : CacheState :=
  { stW with lifetime := ⟨0, 5⟩ }

/-- Like `stW` but key `5` never expires, so every lookup of `5` is a hit. -/
def stH : CacheState :=
  { stW with cells := [⟨0, TimePoint.fin 0, false⟩, ⟨5, TimePoint.max, false⟩] }

/-! ### C9 -/

/-- C9: in the answer-preparation step, `element_count` is incremented
exactly when a previously-never-occupied slot (stored id `0`, index not the
zero slot) becomes occupied by a not-found key, and never when a key
overwrites an already-occupied slot (or when the key was found). -/
theorem spec_C9_element_count {σ : Type} (now : Nat) (mask : Key → Bool)
    (onUpd : Key → Nat → CacheState → σ → σ) (onNF : Key → Nat → σ → σ)
    (st : CacheState) (acc : σ) (id : Key) :
    (prepareAnswerStep now mask onUpd onNF (st, acc) id).1.element_count
      = st.element_count +
        (if mask id = false
            ∧ (cellAt st (findCellIdx st id now).cell_idx).id = 0
            ∧ (findCellIdx st id now).cell_idx ≠ zeroCellIdx st
         then 1 else 0) := by
  by_cases hm : mask id
  · simp [prepareAnswerStep, hm]
  · have hm' : mask id = false := by simpa using hm
    by_cases hc : (cellAt st (findCellIdx st id now).cell_idx).id = 0
        ∧ (findCellIdx st id now).cell_idx ≠ zeroCellIdx st
    · simp [prepareAnswerStep, hm', hc]
    · simp [prepareAnswerStep, hm', hc]

/-! ### C10 -/

/-- C10: for a requested key whose found mask is false, `prepareAnswer`
unconditionally takes over the key's slot — whatever cell currently lives
there (no hypothesis restricts it, so in particular a fresh valid entry for
a different key is evicted): the cell becomes `⟨key, fresh expiry,
default⟩` and every attribute of the dictionary, numeric and string alike,
has its payload at that slot reset to its null value; then the not-found
handler runs. -/
theorem spec_C10_takeover {σ : Type} (now : Nat) (mask : Key → Bool)
    (onUpd : Key → Nat → CacheState → σ → σ) (onNF : Key → Nat → σ → σ)
    (st : CacheState) (acc : σ) (id : Key) (hm : mask id = false) :
    (prepareAnswerStep now mask onUpd onNF (st, acc) id).1.cells
        = st.cells.set (findCellIdx st id now).cell_idx
            ⟨id, newExpiresAt st now, true⟩
    ∧ (prepareAnswerStep now mask onUpd onNF (st, acc) id).1.numAttrs
        = st.numAttrs.map
            (fun a => { a with arr := a.arr.set (findCellIdx st id now).cell_idx a.null_value })
    ∧ (prepareAnswerStep now mask onUpd onNF (st, acc) id).1.strAttrs
        = st.strAttrs.map
            (fun a => { a with arr := a.arr.set (findCellIdx st id now).cell_idx a.null_value })
    ∧ (prepareAnswerStep now mask onUpd onNF (st, acc) id).2
        = onNF id (findCellIdx st id now).cell_idx acc := by
  refine ⟨?_, ?_, ?_, ?_⟩ <;> simp [prepareAnswerStep, hm]

/-- Witness for C10: slot 1 of `stW` holds a valid-looking entry for key
`5`, yet answering for the not-found key `7` (which also hashes to slot 1)
overwrites it with a default cell for `7`. -/
theorem spec_C10_takeover_witness :
    (prepareAnswerStep (σ := Unit) 20 (fun _ => false)
        (fun _ _ _ u => u) (fun _ _ u => u) (stH, ()) 7).1.cells
      = stH.cells.set 1 ⟨7, TimePoint.fin 57, true⟩ := by
  have h := spec_C10_takeover (σ := Unit) 20 (fun _ => false)
    (fun _ _ _ u => u) (fun _ _ u => u) stH () 7 rfl
  rw [h.1]
  rfl

/-! ### C5 -/

/-- C5 counterexample: with the TTL range `[0, 5]` — where the two bounds
are not both zero — `prepareAnswer` still assigns the never-expires
sentinel, because the source tests `min_sec != 0 && max_sec != 0`; the
claimed "sentinel iff both bounds are zero" equivalence is false. -/
theorem spec_C5_counterexample :
    ¬(newExpiresAt stZ 20 = TimePoint.max
        ↔ (stZ.lifetime.min_sec = 0 ∧ stZ.lifetime.max_sec = 0)) := by
  decide

/-- C5 amended: the expiry assigned by `prepareAnswer` is the max sentinel
iff at least one of the TTL bounds is zero; when both bounds are nonzero
(and the range is well formed) the expiry is `now` plus a draw lying in
`[min_sec, max_sec]`. -/
theorem spec_C5_expiry (st : CacheState) (now : Nat) :
    (newExpiresAt st now = TimePoint.max
        ↔ (st.lifetime.min_sec = 0 ∨ st.lifetime.max_sec = 0))
    ∧ (st.lifetime.min_sec ≠ 0 → st.lifetime.max_sec ≠ 0 →
        st.lifetime.min_sec ≤ st.lifetime.max_sec →
        ∃ d, newExpiresAt st now = TimePoint.fin (now + d)
          ∧ st.lifetime.min_sec ≤ d ∧ d ≤ st.lifetime.max_sec) := by
  constructor
  · by_cases h : st.lifetime.min_sec ≠ 0 ∧ st.lifetime.max_sec ≠ 0
    · simp only [newExpiresAt, if_pos h]
      constructor
      · intro hc
        exact absurd hc (by simp)
      · intro hc
        rcases hc with hc | hc
        · exact absurd hc h.1
        · exact absurd hc h.2
    · simp only [newExpiresAt, if_neg h]
      constructor
      · intro _
        by_cases h1 : st.lifetime.min_sec = 0
        · exact Or.inl h1
        · exact Or.inr (by
            by_contra h2
            exact h ⟨h1, h2⟩)
      · intro _
        trivial
  · intro h1 h2 h3
    refine ⟨uniformDraw st.lifetime.min_sec st.lifetime.max_sec (st.rnd st.rnd_pos),
      ?_, ?_, ?_⟩
    · simp [newExpiresAt, h1, h2]
    · exact Nat.le_add_right _ _
    · have hlt : (st.rnd st.rnd_pos) % (st.lifetime.max_sec - st.lifetime.min_sec + 1)
          < st.lifetime.max_sec - st.lifetime.min_sec + 1 :=
        Nat.mod_lt _ (by omega)
      simp only [uniformDraw]
      omega

/-- Witness for C5 (amended): on `stW` (TTL `[30, 60]`, next draw `7`) the
assigned expiry is `now + d` with `30 ≤ d ≤ 60`. -/
theorem spec_C5_expiry_witness :
    ∃ d, newExpiresAt stW 20 = TimePoint.fin (20 + d) ∧ 30 ≤ d ∧ d ≤ 60 :=
  (spec_C5_expiry stW 20).2 (by decide) (by decide) (by decide)

/-! ### C8 -/

/-- C8: the answer-preparation step acquires only the read lock
(`ProfilingScopedReadRWLock`, source line 348) and nevertheless mutates the
cell table — here the concrete run on `stW` changes `cells` — contradicting
the claimed discipline that every `(key, expires_at, is_default)` mutation
holds the write lock. -/
theorem spec_C8_read_lock_mutation :
    prepareAnswerLockAcquired = LockKind.read
    ∧ (prepareAnswer (σ := Unit) stW 20 [5] (fun _ => false)
        (fun _ _ _ u => u) (fun _ _ u => u) ()).1.cells ≠ stW.cells := by
  exact ⟨rfl, by decide⟩

/-! ### C4 -/

/-- C4 counterexample: on `stW` at time `20` the batch `[5]` has only an
expired key and `allow_read_expired_keys` is enabled, so the async
fire-and-forget path is taken; with the update queue at capacity the
`tryPushToUpdateQueueOrThrow` exception escapes `getItemsNumberImpl` —
the lookup fails instead of returning the already-emitted stale value, so
the error is not silently dropped. -/
theorem spec_C4_counterexample :
    (classifyNum stW (arrOf stW 0) 20 (fun _ => (0 : Int)) true
        [5]).cache_not_found_ids.isEmpty = true
    ∧ (classifyNum stW (arrOf stW 0) 20 (fun _ => (0 : Int)) true
        [5]).cache_expired_ids.isEmpty = false
    ∧ (getItemsNumberImpl stW 0 20 20 [5] (fun _ => (0 : Int)) true false stW
        (fun _ => true)).result = LookupResult.queueFull := by
  refine ⟨by decide, by decide, by decide⟩

/-- C4 amended: a full update queue surfaces `QueueFullError` to the caller
on every path that pushes an update unit — the synchronous path and the
async/allow-stale refresh path alike (nothing in `getItemsNumberImpl`
catches the push exception): whenever the classify pass leaves any key to
update and the queue has no room, the lookup's result is the queue-full
failure. -/
theorem spec_C4_queue_full_surfaced (st : CacheState) (attrIdx : Nat)
    (now now2 : Nat) (ids : List Key) (gd : Nat → Int) (ar : Bool)
    (post : CacheState) (mask : Key → Bool)
    (h : ((classifyNum st (arrOf st attrIdx) now gd ar ids).cache_not_found_ids.isEmpty
        && (classifyNum st (arrOf st attrIdx) now gd ar ids).cache_expired_ids.isEmpty)
        = false) :
    (getItemsNumberImpl st attrIdx now now2 ids gd ar false post mask).result
      = LookupResult.queueFull := by
  simp only [getItemsNumberImpl, h]
  by_cases h2 : ((classifyNum st (arrOf st attrIdx) now gd ar ids).cache_not_found_ids.isEmpty
      && ar) = true
  · simp [h2]
  · simp [h2]

/-- Witness for C4 (amended): the concrete sync-path batch `[9]` (key `9`
is absent from `stW`) against a full queue fails with the queue-full
result. -/
theorem spec_C4_queue_full_surfaced_witness :
    (getItemsNumberImpl stW 0 20 20 [9] (fun _ => (0 : Int)) false false stW
        (fun _ => true)).result = LookupResult.queueFull :=
  spec_C4_queue_full_surfaced stW 0 20 20 [9] (fun _ => (0 : Int)) false stW
    (fun _ => true) (by decide)

/-! ### C7 -/

/-- C7 counterexample: key `5` of `stW` has a previously-known but expired
value (`7`, non-default); with a failed fetch (found mask false) the active
code of `prepareAnswer` does not quarantine the stale value under a backoff
window — it marks the cell default, resets the payload to null, and assigns
the ordinary TTL-draw expiry (`20 + 37 = 57` here). -/
theorem spec_C7_counterexample :
    (cellAt stW 1).id = 5 ∧ (cellAt stW 1).is_default = false
    ∧ (findCellIdx stW 5 20).outdated = true
    ∧ (cellAt (prepareAnswer (σ := Unit) stW 20 [5] (fun _ => false)
        (fun _ _ _ u => u) (fun _ _ u => u) ()).1 1).is_default = true
    ∧ (arrOf (prepareAnswer (σ := Unit) stW 20 [5] (fun _ => false)
        (fun _ _ _ u => u) (fun _ _ u => u) ()).1 0).getD 1 0 = 0
    ∧ (cellAt (prepareAnswer (σ := Unit) stW 20 [5] (fun _ => false)
        (fun _ _ _ u => u) (fun _ _ u => u) ()).1 1).expires_at
        = TimePoint.fin 57 := by
  refine ⟨by decide, by decide, by decide, by decide, by decide, by decide⟩

/-- C7 amended: when a fetch fails, every requested key whose found flag is
false is treated uniformly by `prepareAnswer` — even a key that still holds
a previously-expired-but-known value loses it: the slot is overwritten as a
default cell under the ordinary TTL expiry rule (the backoff-freeze
quarantine exists only in commented-out code), and the not-found handler is
invoked for the key, so waiters receive default answers rather than a
propagated exception. -/
theorem spec_C7_amended {σ : Type} (now : Nat) (mask : Key → Bool)
    (onUpd : Key → Nat → CacheState → σ → σ) (onNF : Key → Nat → σ → σ)
    (st : CacheState) (acc : σ) (id : Key) (hm : mask id = false)
    (_hstale : (cellAt st (findCellIdx st id now).cell_idx).id = id)
    (_hknown : (cellAt st (findCellIdx st id now).cell_idx).is_default = false) :
    (prepareAnswerStep now mask onUpd onNF (st, acc) id).1.cells
        = st.cells.set (findCellIdx st id now).cell_idx
            ⟨id, newExpiresAt st now, true⟩
    ∧ (prepareAnswerStep now mask onUpd onNF (st, acc) id).2
        = onNF id (findCellIdx st id now).cell_idx acc := by
  refine ⟨?_, ?_⟩ <;> simp [prepareAnswerStep, hm]

/-- Witness for C7 (amended): applied to `stW` and its stale key `5`. -/
theorem spec_C7_amended_witness :
    (prepareAnswerStep (σ := Unit) 20 (fun _ => false)
        (fun _ _ _ u => u) (fun _ _ u => u) (stW, ()) 5).1.cells
      = stW.cells.set 1 ⟨5, TimePoint.fin 57, true⟩ := by
  have h := spec_C7_amended (σ := Unit) 20 (fun _ => false)
    (fun _ _ _ u => u) (fun _ _ u => u) stW () 5 rfl (by decide) (by decide)
  rw [h.1]
  rfl

/-! ### C1 -/

/-- C1: the classify pass of a batch lookup processes the keys in input
order, consulting `findCellIdx` per key: its output list carries, row by
row, the cached value (or the per-row default for a default-marked cell)
for every valid key, the stale value for every outdated key when
`allow_read_expired_keys` is enabled and no value otherwise, and nothing
for not-found keys; the expired-group map holds exactly the rows of the
outdated keys and the not-found-group map exactly the rows of the
not-found keys, each in input order. -/
theorem spec_C1_classify_pass (st : CacheState) (arr : List Int) (now : Nat)
    (gd : Nat → Int) (ar : Bool) (ids : List Key) :
    (classifyNum st arr now gd ar ids).out
        = mapWithRow (outEntry st arr now gd ar) 0 ids
    ∧ (∀ k, rowsOf (classifyNum st arr now gd ar ids).cache_expired_ids k
        = classRows (expiredClass st now) k 0 ids)
    ∧ (∀ k, rowsOf (classifyNum st arr now gd ar ids).cache_not_found_ids k
        = classRows (notFoundClass st now) k 0 ids) := by
  have h := classifyNumGo_spec st arr now gd ar ids 0 ⟨[], [], [], 0⟩
  refine ⟨?_, fun k => ?_, fun k => ?_⟩
  · simpa [classifyNum] using h.1
  · simpa [classifyNum, rowsOf] using h.2.1 k
  · simpa [classifyNum, rowsOf] using h.2.2 k

/-! ### C3 -/

theorem keys_pushRow (m : List (Key × List Nat)) (k : Key) (row : Nat) :
    (pushRow m k row).map Prod.fst
      = if k ∈ m.map Prod.fst then m.map Prod.fst
        else m.map Prod.fst ++ [k] := by
  induction m with
  | nil => simp [pushRow]
  | cons p rest ih =>
      obtain ⟨k', rs⟩ := p
      by_cases hk : k' = k
      · subst hk
        simp [pushRow]
      · have hne : ¬ k = k' := fun hh => hk hh.symm
        simp only [pushRow, if_neg hk, List.map_cons, ih, List.mem_cons]
        by_cases hm : k ∈ rest.map Prod.fst
        · simp [hm, hne]
        · simp [hm, hne]

theorem keys_pushRow_nodup (m : List (Key × List Nat)) (k : Key) (row : Nat)
    (h : (m.map Prod.fst).Nodup) :
    ((pushRow m k row).map Prod.fst).Nodup := by
  rw [keys_pushRow]
  by_cases hm : k ∈ m.map Prod.fst
  · simpa [hm] using h
  · simp [hm, List.nodup_append, h]

theorem classifyNumGo_keys_nodup (st : CacheState) (arr : List Int)
    (now : Nat) (gd : Nat → Int) (ar : Bool) (l : List Key) (row : Nat)
    (acc : NumClassify)
    (he : (acc.cache_expired_ids.map Prod.fst).Nodup)
    (hn : (acc.cache_not_found_ids.map Prod.fst).Nodup) :
    ((classifyNumGo st arr now gd ar l row acc).cache_expired_ids.map Prod.fst).Nodup
    ∧ ((classifyNumGo st arr now gd ar l row acc).cache_not_found_ids.map Prod.fst).Nodup := by
  induction l generalizing row acc with
  | nil => exact ⟨he, hn⟩
  | cons id rest ih =>
      have hgo : classifyNumGo st arr now gd ar (id :: rest) row acc
          = classifyNumGo st arr now gd ar rest (row + 1)
              (classifyStep st arr now gd ar id row acc) := rfl
      rw [hgo]
      by_cases hv : (findCellIdx st id now).valid = true
      · rw [classifyStep_valid st arr now gd ar id row acc hv]
        exact ih (row + 1) _ he hn
      · replace hv : (findCellIdx st id now).valid = false := by simpa using hv
        by_cases ho : (findCellIdx st id now).outdated = true
        · rw [classifyStep_outdated st arr now gd ar id row acc hv ho]
          exact ih (row + 1) _ (keys_pushRow_nodup _ _ _ he) hn
        · replace ho : (findCellIdx st id now).outdated = false := by simpa using ho
          rw [classifyStep_notFound st arr now gd ar id row acc hv ho]
          exact ih (row + 1) _ he (keys_pushRow_nodup _ _ _ hn)

/-- C3: dispatch of the update work in `getItemsNumberImpl`.  When the only
non-hit keys are expired and stale reads are allowed, the call pushes a
single update unit holding the distinct expired keys and returns the stale
values already written by the classify pass, without blocking and without
running `prepareAnswer`; when some key is genuinely absent, or stale reads
are disallowed (and there is anything to update), the call pushes a single
unit, blocks on its completion and runs `prepareAnswer`. -/
theorem spec_C3_update_dispatch (st : CacheState) (attrIdx : Nat)
    (now now2 : Nat) (ids : List Key) (gd : Nat → Int) (ar : Bool)
    (post : CacheState) (mask : Key → Bool) :
    ((classifyNum st (arrOf st attrIdx) now gd ar ids).cache_not_found_ids.isEmpty = true →
     (classifyNum st (arrOf st attrIdx) now gd ar ids).cache_expired_ids.isEmpty = false →
     ar = true →
     getItemsNumberImpl st attrIdx now now2 ids gd ar true post mask
        = ⟨.ok (classifyNum st (arrOf st attrIdx) now gd ar ids).out,
           [(classifyNum st (arrOf st attrIdx) now gd ar ids).cache_expired_ids.map Prod.fst],
           false, false⟩
     ∧ ((classifyNum st (arrOf st attrIdx) now gd ar ids).cache_expired_ids.map Prod.fst).Nodup)
    ∧ (((classifyNum st (arrOf st attrIdx) now gd ar ids).cache_not_found_ids.isEmpty = false
        ∨ (ar = false
           ∧ (classifyNum st (arrOf st attrIdx) now gd ar ids).cache_expired_ids.isEmpty = false)) →
       (getItemsNumberImpl st attrIdx now now2 ids gd ar true post mask).pushed
          = [(classifyNum st (arrOf st attrIdx) now gd ar ids).cache_not_found_ids.map Prod.fst
              ++ (classifyNum st (arrOf st attrIdx) now gd ar ids).cache_expired_ids.map Prod.fst]
       ∧ (getItemsNumberImpl st attrIdx now now2 ids gd ar true post mask).waited = true
       ∧ (getItemsNumberImpl st attrIdx now now2 ids gd ar true post mask).ranPrepare = true) := by
  constructor
  · intro hnf hex har
    subst har
    have hnf' : (classifyNum st (arrOf st attrIdx) now gd true ids).cache_not_found_ids = [] :=
      List.isEmpty_iff.1 hnf
    have hex' : (classifyNum st (arrOf st attrIdx) now gd true ids).cache_expired_ids ≠ [] := by
      intro hb
      rw [hb] at hex
      simp at hex
    constructor
    · simp [getItemsNumberImpl, hnf', hex']
    · exact (classifyNumGo_keys_nodup st (arrOf st attrIdx) now gd true ids 0
        ⟨[], [], [], 0⟩ (by simp) (by simp)).1
  · intro hcase
    rcases hcase with hnf | ⟨har, hex⟩
    · have hnf' : (classifyNum st (arrOf st attrIdx) now gd ar ids).cache_not_found_ids ≠ [] := by
        intro hb
        rw [hb] at hnf
        simp at hnf
      refine ⟨?_, ?_, ?_⟩ <;> simp [getItemsNumberImpl, hnf']
    · subst har
      have hex' : (classifyNum st (arrOf st attrIdx) now gd false ids).cache_expired_ids ≠ [] := by
        intro hb
        rw [hb] at hex
        simp at hex
      refine ⟨?_, ?_, ?_⟩ <;> simp [getItemsNumberImpl, hex']

/-- Witness for C3: the batch `[5]` against `stW` at time `20` has one
expired key and no missing key; with stale reads allowed it takes the
async path. -/
theorem spec_C3_update_dispatch_witness :
    getItemsNumberImpl stW 0 20 20 [5] (fun _ => (0 : Int)) true true stW
        (fun _ => true)
      = ⟨.ok (classifyNum stW (arrOf stW 0) 20 (fun _ => (0 : Int)) true [5]).out,
         [(classifyNum stW (arrOf stW 0) 20 (fun _ => (0 : Int)) true
            [5]).cache_expired_ids.map Prod.fst],
         false, false⟩
    ∧ ((classifyNum stW (arrOf stW 0) 20 (fun _ => (0 : Int)) true
        [5]).cache_expired_ids.map Prod.fst).Nodup :=
  (spec_C3_update_dispatch stW 0 20 20 [5] (fun _ => (0 : Int)) true stW
    (fun _ => true)).1 (by decide) (by decide) rfl

/-! ### C2 -/

theorem get?_lt_length {α : Type} {l : List α} {n : Nat} {a : α}
    (h : l.get? n = some a) : n < l.length := by
  by_contra hc
  rw [List.get?_eq_none.2 (by omega)] at h
  cases h

theorem routineVal_congr (st : CacheState) (arr : List Int) (gd : Nat → Int)
    (i j idx : Nat) (hconst : ∀ a b, gd a = gd b) :
    routineVal st arr gd i idx = routineVal st arr gd j idx := by
  unfold routineVal
  split_ifs with h
  · exact hconst i j
  · rfl

theorem outEntry_congr (st : CacheState) (arr : List Int) (now : Nat)
    (gd : Nat → Int) (ar : Bool) (i j : Nat) (k : Key)
    (hconst : ∀ a b, gd a = gd b) :
    outEntry st arr now gd ar i k = outEntry st arr now gd ar j k := by
  simp only [outEntry]
  split_ifs with h1 h2
  · exact congrArg some (routineVal_congr st arr gd i j _ hconst)
  · exact congrArg some (routineVal_congr st arr gd i j _ hconst)
  · rfl

theorem numStep_snd_length (attrIdx : Nat) (c : NumClassify) (gd : Nat → Int)
    (now2 : Nat) (mask : Key → Bool) (p : CacheState × List (Option Int))
    (id : Key) :
    (prepareAnswerStep now2 mask (numOnUpd attrIdx c) (numOnNF gd c) p id).2.length
      = p.2.length := by
  by_cases hm : mask id
  · simp [prepareAnswerStep, hm, numOnUpd, writeRows_length]
  · have hm' : mask id = false := by simpa using hm
    simp [prepareAnswerStep, hm', numOnNF, writeRows_length]

/-- The effect on the output rows of one `prepareAnswer` iteration of the
numeric pipeline: some row-function `f` (constant when the default provider
is constant) is written to every recorded row of the id, other rows are
untouched. -/
theorem numStep_out (attrIdx : Nat) (c : NumClassify) (gd : Nat → Int)
    (now2 : Nat) (mask : Key → Bool) (p : CacheState × List (Option Int))
    (id : Key) :
    ∃ f : Nat → Int,
      ((∀ a b, gd a = gd b) → ∀ a b, f a = f b)
      ∧ ∀ r, (prepareAnswerStep now2 mask (numOnUpd attrIdx c) (numOnNF gd c) p id).2.get? r
          = if (r ∈ rowsOf c.cache_not_found_ids id ∨ r ∈ rowsOf c.cache_expired_ids id)
                ∧ r < p.2.length
            then some (some (f r)) else p.2.get? r := by
  by_cases hm : mask id
  · refine ⟨fun _ => (arrOf p.1 attrIdx).getD (findCellIdx p.1 id now2).cell_idx 0,
      fun _ a b => rfl, fun r => ?_⟩
    have hstep : (prepareAnswerStep now2 mask (numOnUpd attrIdx c) (numOnNF gd c) p id).2
        = writeRows
            (writeRows p.2 (rowsOf c.cache_not_found_ids id)
              (fun _ => (arrOf p.1 attrIdx).getD (findCellIdx p.1 id now2).cell_idx 0))
            (rowsOf c.cache_expired_ids id)
            (fun _ => (arrOf p.1 attrIdx).getD (findCellIdx p.1 id now2).cell_idx 0) := by
      simp [prepareAnswerStep, hm, numOnUpd]
    rw [hstep, get?_writeRows, writeRows_length, get?_writeRows]
    split_ifs <;> tauto
  · have hm' : mask id = false := by simpa using hm
    refine ⟨gd, fun h a b => h a b, fun r => ?_⟩
    have hstep : (prepareAnswerStep now2 mask (numOnUpd attrIdx c) (numOnNF gd c) p id).2
        = writeRows (writeRows p.2 (rowsOf c.cache_not_found_ids id) gd)
            (rowsOf c.cache_expired_ids id) gd := by
      simp [prepareAnswerStep, hm', numOnNF]
    rw [hstep, get?_writeRows, writeRows_length, get?_writeRows]
    split_ifs <;> tauto

/-- Behaviour of the whole `prepareAnswer` fold of the numeric pipeline:
lengths are preserved; rows of equal keys that agreed before still agree
after (under a constant default provider); already-written rows stay
written; and every recorded row of every requested key ends up written. -/
theorem numFold_spec (attrIdx : Nat) (c : NumClassify) (gd : Nat → Int)
    (now2 : Nat) (mask : Key → Bool) (ids : List Key)
    (hconst : ∀ a b, gd a = gd b)
    (hcovN : ∀ k r, r ∈ rowsOf c.cache_not_found_ids k → ids.get? r = some k)
    (hcovE : ∀ k r, r ∈ rowsOf c.cache_expired_ids k → ids.get? r = some k)
    (hall : ∀ k r r',
        (r ∈ rowsOf c.cache_not_found_ids k ∨ r ∈ rowsOf c.cache_expired_ids k)
        → ids.get? r' = some k
        → (r' ∈ rowsOf c.cache_not_found_ids k ∨ r' ∈ rowsOf c.cache_expired_ids k))
    (req : List Key) :
    ∀ p : CacheState × List (Option Int), p.2.length = ids.length →
      (prepareAnswerGo now2 mask (numOnUpd attrIdx c) (numOnNF gd c) p req).2.length
          = ids.length
      ∧ (∀ i j k, ids.get? i = some k → ids.get? j = some k →
          p.2.get? i = p.2.get? j →
          (prepareAnswerGo now2 mask (numOnUpd attrIdx c) (numOnNF gd c) p req).2.get? i
            = (prepareAnswerGo now2 mask (numOnUpd attrIdx c) (numOnNF gd c) p req).2.get? j)
      ∧ (∀ r v, p.2.get? r = some (some v) →
          ∃ w, (prepareAnswerGo now2 mask (numOnUpd attrIdx c) (numOnNF gd c) p req).2.get? r
            = some (some w))
      ∧ (∀ k, k ∈ req →
          ∀ r, (r ∈ rowsOf c.cache_not_found_ids k ∨ r ∈ rowsOf c.cache_expired_ids k) →
          ∃ w, (prepareAnswerGo now2 mask (numOnUpd attrIdx c) (numOnNF gd c) p req).2.get? r
            = some (some w)) := by
  induction req with
  | nil =>
      intro p hlen
      exact ⟨hlen, fun i j k _ _ h3 => h3, fun r v h => ⟨v, h⟩,
        fun k hk => absurd hk (by simp)⟩
  | cons id rest ih =>
      intro p hlen
      have hgo : prepareAnswerGo now2 mask (numOnUpd attrIdx c) (numOnNF gd c) p (id :: rest)
          = prepareAnswerGo now2 mask (numOnUpd attrIdx c) (numOnNF gd c)
              (prepareAnswerStep now2 mask (numOnUpd attrIdx c) (numOnNF gd c) p id)
              rest := rfl
      obtain ⟨f, hf, hform⟩ := numStep_out attrIdx c gd now2 mask p id
      have hlen' : (prepareAnswerStep now2 mask (numOnUpd attrIdx c) (numOnNF gd c) p id).2.length
          = ids.length := by
        rw [numStep_snd_length]
        exact hlen
      obtain ⟨L, K, S, W⟩ := ih (prepareAnswerStep now2 mask (numOnUpd attrIdx c) (numOnNF gd c) p id) hlen'
      rw [hgo]
      refine ⟨L, ?_, ?_, ?_⟩
      · intro i j k h1 h2 h3
        apply K i j k h1 h2
        have hi : i < ids.length := get?_lt_length h1
        have hj : j < ids.length := get?_lt_length h2
        rw [hform i, hform j]
        by_cases hgi : i ∈ rowsOf c.cache_not_found_ids id ∨ i ∈ rowsOf c.cache_expired_ids id
        · have hik : ids.get? i = some id := by
            rcases hgi with h | h
            · exact hcovN id i h
            · exact hcovE id i h
          have hkid : k = id := by
            rw [h1] at hik
            exact Option.some.inj hik
          have hgj : j ∈ rowsOf c.cache_not_found_ids id ∨ j ∈ rowsOf c.cache_expired_ids id :=
            hall id i j hgi (hkid ▸ h2)
          rw [if_pos ⟨hgi, by omega⟩, if_pos ⟨hgj, by omega⟩, hf hconst i j]
        · by_cases hgj : j ∈ rowsOf c.cache_not_found_ids id ∨ j ∈ rowsOf c.cache_expired_ids id
          · exfalso
            have hjk : ids.get? j = some id := by
              rcases hgj with h | h
              · exact hcovN id j h
              · exact hcovE id j h
            have hkid : k = id := by
              rw [h2] at hjk
              exact Option.some.inj hjk
            exact hgi (hall id j i hgj (hkid ▸ h1))
          · rw [if_neg (fun hc => hgi hc.1), if_neg (fun hc => hgj hc.1)]
            exact h3
      · intro r v h
        have hkeep : ∃ w,
            (prepareAnswerStep now2 mask (numOnUpd attrIdx c) (numOnNF gd c) p id).2.get? r
              = some (some w) := by
          rw [hform r]
          by_cases hc : (r ∈ rowsOf c.cache_not_found_ids id
              ∨ r ∈ rowsOf c.cache_expired_ids id) ∧ r < p.2.length
          · rw [if_pos hc]
            exact ⟨f r, rfl⟩
          · rw [if_neg hc]
            exact ⟨v, h⟩
        obtain ⟨w, hw⟩ := hkeep
        exact S r w hw
      · intro k hk r hr
        rcases List.mem_cons.1 hk with hkid | hkrest
        · have hidr : ids.get? r = some k := by
            rcases hr with h | h
            · exact hcovN k r h
            · exact hcovE k r h
          have hrlt : r < ids.length := get?_lt_length hidr
          have hr' : r ∈ rowsOf c.cache_not_found_ids id
              ∨ r ∈ rowsOf c.cache_expired_ids id := hkid ▸ hr
          have hw : (prepareAnswerStep now2 mask (numOnUpd attrIdx c) (numOnNF gd c) p id).2.get? r
              = some (some (f r)) := by
            rw [hform r, if_pos ⟨hr', by omega⟩]
          exact S r (f r) hw
        · exact W k hkrest r hr

/-- C2 counterexample: the batch `[9, 9]` repeats the absent key `9`; the
fetch reports it not found, and `on_id_not_found` writes `get_default(row)`
separately per row, so with a row-dependent default provider the two
occurrences of the same key receive different values (`0` and `1`). -/
theorem spec_C2_counterexample :
    ([9, 9] : List Key).get? 0 = ([9, 9] : List Key).get? 1
    ∧ (getItemsNumberImpl stW 0 20 20 [9, 9] (fun r => (r : Int)) false true stW
        (fun _ => false)).result
        = LookupResult.ok [some 0, some 1]
    ∧ (([some 0, some 1] : List (Option Int)).get? 0
        ≠ ([some 0, some 1] : List (Option Int)).get? 1) := by
  refine ⟨by decide, by decide, by decide⟩

/-- C2 amended: `getItemsNumberImpl` produces exactly one output value per
input row, aligned to input order, and — provided the default provider is
constant (so that no row can receive a row-specific default) — every
repetition of the same key inside one batch receives an identical resolved
value, including keys that were misses requiring the synchronous fetch. -/
theorem spec_C2_lookup_alignment (st : CacheState) (attrIdx : Nat)
    (now now2 : Nat) (ids : List Key) (gd : Nat → Int) (ar room : Bool)
    (post : CacheState) (mask : Key → Bool)
    (hconst : ∀ a b, gd a = gd b) (out : List (Option Int))
    (hok : (getItemsNumberImpl st attrIdx now now2 ids gd ar room post mask).result
        = LookupResult.ok out) :
    out.length = ids.length
    ∧ (∀ r k, ids.get? r = some k → ∃ v, out.get? r = some (some v))
    ∧ (∀ i j k, ids.get? i = some k → ids.get? j = some k →
        out.get? i = out.get? j) := by
  have hcf := classifyNumGo_spec st (arrOf st attrIdx) now gd ar ids 0 ⟨[], [], [], 0⟩
  have hout : (classifyNum st (arrOf st attrIdx) now gd ar ids).out
      = mapWithRow (outEntry st (arrOf st attrIdx) now gd ar) 0 ids := by
    simpa [classifyNum] using hcf.1
  have hEq : ∀ k, rowsOf (classifyNum st (arrOf st attrIdx) now gd ar ids).cache_expired_ids k
      = classRows (expiredClass st now) k 0 ids := by
    intro k
    simpa [classifyNum, rowsOf] using hcf.2.1 k
  have hNq : ∀ k, rowsOf (classifyNum st (arrOf st attrIdx) now gd ar ids).cache_not_found_ids k
      = classRows (notFoundClass st now) k 0 ids := by
    intro k
    simpa [classifyNum, rowsOf] using hcf.2.2 k
  have hmemE : ∀ k r,
      r ∈ rowsOf (classifyNum st (arrOf st attrIdx) now gd ar ids).cache_expired_ids k
        ↔ (ids.get? r = some k ∧ expiredClass st now k = true) := by
    intro k r
    rw [hEq k, mem_classRows_zero]
  have hmemN : ∀ k r,
      r ∈ rowsOf (classifyNum st (arrOf st attrIdx) now gd ar ids).cache_not_found_ids k
        ↔ (ids.get? r = some k ∧ notFoundClass st now k = true) := by
    intro k r
    rw [hNq k, mem_classRows_zero]
  have hlen0 : (classifyNum st (arrOf st attrIdx) now gd ar ids).out.length = ids.length := by
    rw [hout]
    exact mapWithRow_length _ _ _
  have hget0 : ∀ r k, ids.get? r = some k →
      (classifyNum st (arrOf st attrIdx) now gd ar ids).out.get? r
        = some (outEntry st (arrOf st attrIdx) now gd ar r k) := by
    intro r k h
    rw [hout, get?_mapWithRow, h]
    simp
  have hkeyed0 : ∀ i j k, ids.get? i = some k → ids.get? j = some k →
      (classifyNum st (arrOf st attrIdx) now gd ar ids).out.get? i
        = (classifyNum st (arrOf st attrIdx) now gd ar ids).out.get? j := by
    intro i j k h1 h2
    rw [hget0 i k h1, hget0 j k h2,
      outEntry_congr st (arrOf st attrIdx) now gd ar i j k hconst]
  have hnoneClass : ∀ r k, outEntry st (arrOf st attrIdx) now gd ar r k = none →
      (notFoundClass st now k = true ∨ (expiredClass st now k = true ∧ ar = false)) := by
    intro r k hne
    simp only [outEntry] at hne
    by_cases hv : (findCellIdx st k now).valid = true
    · rw [if_pos hv] at hne
      cases hne
    · replace hv : (findCellIdx st k now).valid = false := by simpa using hv
      rw [if_neg (by simp [hv])] at hne
      by_cases ho : (findCellIdx st k now).outdated = true
      · by_cases har : ar = true
        · rw [if_pos (by simp [ho, har])] at hne
          cases hne
        · replace har : ar = false := by simpa using har
          exact Or.inr ⟨by simp [expiredClass, hv, ho], har⟩
      · replace ho : (findCellIdx st k now).outdated = false := by simpa using ho
        exact Or.inl (by simp [notFoundClass, hv, ho])
  simp only [getItemsNumberImpl] at hok
  split_ifs at hok with h1 h2 h3 h4
  · -- no key needs an update: the classify output is returned as is
    have hco : (classifyNum st (arrOf st attrIdx) now gd ar ids).out = out := by
      simpa using hok
    have h1' := h1
    simp only [Bool.and_eq_true, List.isEmpty_iff] at h1'
    have hNnil : (classifyNum st (arrOf st attrIdx) now gd ar ids).cache_not_found_ids = [] :=
      h1'.1
    have hEnil : (classifyNum st (arrOf st attrIdx) now gd ar ids).cache_expired_ids = [] :=
      h1'.2
    refine ⟨by rw [← hco]; exact hlen0, ?_, ?_⟩
    · intro r k h
      cases houtE : outEntry st (arrOf st attrIdx) now gd ar r k with
      | some v =>
          refine ⟨v, ?_⟩
          rw [← hco, hget0 r k h, houtE]
      | none =>
          exfalso
          rcases hnoneClass r k houtE with hcl | hcl
          · have : r ∈ rowsOf (classifyNum st (arrOf st attrIdx) now gd ar ids).cache_not_found_ids k :=
              (hmemN k r).2 ⟨h, hcl⟩
            rw [hNnil] at this
            simp [rowsOf] at this
          · have : r ∈ rowsOf (classifyNum st (arrOf st attrIdx) now gd ar ids).cache_expired_ids k :=
              (hmemE k r).2 ⟨h, hcl.1⟩
            rw [hEnil] at this
            simp [rowsOf] at this
    · intro i j k hi hj
      rw [← hco]
      exact hkeyed0 i j k hi hj
  · -- async path: only expired keys, stale reads allowed, queue has room
    have hco : (classifyNum st (arrOf st attrIdx) now gd ar ids).out = out := by
      simpa using hok
    have h2' := h2
    simp only [Bool.and_eq_true, List.isEmpty_iff] at h2'
    have hNnil : (classifyNum st (arrOf st attrIdx) now gd ar ids).cache_not_found_ids = [] :=
      h2'.1
    have har : ar = true := h2'.2
    refine ⟨by rw [← hco]; exact hlen0, ?_, ?_⟩
    · intro r k h
      cases houtE : outEntry st (arrOf st attrIdx) now gd ar r k with
      | some v =>
          refine ⟨v, ?_⟩
          rw [← hco, hget0 r k h, houtE]
      | none =>
          exfalso
          rcases hnoneClass r k houtE with hcl | hcl
          · have : r ∈ rowsOf (classifyNum st (arrOf st attrIdx) now gd ar ids).cache_not_found_ids k :=
              (hmemN k r).2 ⟨h, hcl⟩
            rw [hNnil] at this
            simp [rowsOf] at this
          · rw [har] at hcl
            cases hcl.2
    · intro i j k hi hj
      rw [← hco]
      exact hkeyed0 i j k hi hj
  · -- synchronous path: push, wait, prepareAnswer
    have hcovN' : ∀ k r,
        r ∈ rowsOf (classifyNum st (arrOf st attrIdx) now gd ar ids).cache_not_found_ids k →
        ids.get? r = some k := fun k r h => ((hmemN k r).1 h).1
    have hcovE' : ∀ k r,
        r ∈ rowsOf (classifyNum st (arrOf st attrIdx) now gd ar ids).cache_expired_ids k →
        ids.get? r = some k := fun k r h => ((hmemE k r).1 h).1
    have hall' : ∀ k r r',
        (r ∈ rowsOf (classifyNum st (arrOf st attrIdx) now gd ar ids).cache_not_found_ids k
          ∨ r ∈ rowsOf (classifyNum st (arrOf st attrIdx) now gd ar ids).cache_expired_ids k)
        → ids.get? r' = some k
        → (r' ∈ rowsOf (classifyNum st (arrOf st attrIdx) now gd ar ids).cache_not_found_ids k
          ∨ r' ∈ rowsOf (classifyNum st (arrOf st attrIdx) now gd ar ids).cache_expired_ids k) := by
      intro k r r' hg hr'
      rcases hg with hg | hg
      · exact Or.inl ((hmemN k r').2 ⟨hr', ((hmemN k r).1 hg).2⟩)
      · exact Or.inr ((hmemE k r').2 ⟨hr', ((hmemE k r).1 hg).2⟩)
    obtain ⟨L, K, S, W⟩ := numFold_spec attrIdx
      (classifyNum st (arrOf st attrIdx) now gd ar ids) gd now2 mask ids hconst
      hcovN' hcovE' hall'
      ((classifyNum st (arrOf st attrIdx) now gd ar ids).cache_not_found_ids.map (·.1)
        ++ (classifyNum st (arrOf st attrIdx) now gd ar ids).cache_expired_ids.map (·.1))
      (post, (classifyNum st (arrOf st attrIdx) now gd ar ids).out) hlen0
    have hco : (prepareAnswerGo now2 mask
        (numOnUpd attrIdx (classifyNum st (arrOf st attrIdx) now gd ar ids))
        (numOnNF gd (classifyNum st (arrOf st attrIdx) now gd ar ids))
        (post, (classifyNum st (arrOf st attrIdx) now gd ar ids).out)
        ((classifyNum st (arrOf st attrIdx) now gd ar ids).cache_not_found_ids.map (·.1)
          ++ (classifyNum st (arrOf st attrIdx) now gd ar ids).cache_expired_ids.map (·.1))).2
        = out := by
      simpa using hok
    refine ⟨by rw [← hco]; exact L, ?_, ?_⟩
    · intro r k h
      cases houtE : outEntry st (arrOf st attrIdx) now gd ar r k with
      | some v =>
          have hinit : (classifyNum st (arrOf st attrIdx) now gd ar ids).out.get? r
              = some (some v) := by
            rw [hget0 r k h, houtE]
          obtain ⟨w, hw⟩ := S r v hinit
          refine ⟨w, ?_⟩
          rw [← hco]
          exact hw
      | none =>
          have hgrouped : r ∈ rowsOf (classifyNum st (arrOf st attrIdx) now gd ar ids).cache_not_found_ids k
              ∨ r ∈ rowsOf (classifyNum st (arrOf st attrIdx) now gd ar ids).cache_expired_ids k := by
            rcases hnoneClass r k houtE with hcl | hcl
            · exact Or.inl ((hmemN k r).2 ⟨h, hcl⟩)
            · exact Or.inr ((hmemE k r).2 ⟨h, hcl.1⟩)
          have hkreq : k ∈ (classifyNum st (arrOf st attrIdx) now gd ar ids).cache_not_found_ids.map (·.1)
              ++ (classifyNum st (arrOf st attrIdx) now gd ar ids).cache_expired_ids.map (·.1) := by
            rcases hgrouped with hg | hg
            · exact List.mem_append.2 (Or.inl
                (rowsOf_ne_nil_mem_keys _ k (List.ne_nil_of_mem hg)))
            · exact List.mem_append.2 (Or.inr
                (rowsOf_ne_nil_mem_keys _ k (List.ne_nil_of_mem hg)))
          obtain ⟨w, hw⟩ := W k hkreq r hgrouped
          refine ⟨w, ?_⟩
          rw [← hco]
          exact hw
    · intro i j k hi hj
      rw [← hco]
      exact K i j k hi hj (hkeyed0 i j k hi hj)

/-- Witness for C2 (amended): the all-hit batch `[5, 5]` on `stH` with a
constant default provider yields two rows with the identical value. -/
theorem spec_C2_lookup_alignment_witness :
    ([some 7, some 7] : List (Option Int)).length = ([5, 5] : List Key).length
    ∧ (∀ r k, ([5, 5] : List Key).get? r = some k →
        ∃ v, ([some 7, some 7] : List (Option Int)).get? r = some (some v))
    ∧ (∀ i j k, ([5, 5] : List Key).get? i = some k →
        ([5, 5] : List Key).get? j = some k →
        ([some 7, some 7] : List (Option Int)).get? i
          = ([some 7, some 7] : List (Option Int)).get? j) :=
  spec_C2_lookup_alignment stH 0 20 20 [5, 5] (fun _ => (0 : Int)) false true stH
    (fun _ => true) (fun _ _ => rfl) [some 7, some 7] (by decide)

/-! ### C6 -/

theorem mapLookup_mapInsert_same (m : List (Key × String)) (k : Key)
    (s : String) : mapLookup (mapInsert m k s) k = some s := by
  induction m with
  | nil => simp [mapInsert, mapLookup]
  | cons p rest ih =>
      obtain ⟨k', s'⟩ := p
      by_cases hk : k' = k
      · simp [mapInsert, mapLookup, hk]
      · simp [mapInsert, mapLookup, hk, ih]

theorem mapLookup_mapInsert_ne (m : List (Key × String)) (k k' : Key)
    (s : String) (h : k' ≠ k) :
    mapLookup (mapInsert m k s) k' = mapLookup m k' := by
  have h2 : ¬ k = k' := fun hh => h hh.symm
  induction m with
  | nil => simp [mapInsert, mapLookup, h2]
  | cons p rest ih =>
      obtain ⟨k0, s0⟩ := p
      by_cases hk : k0 = k
      · subst hk
        simp [mapInsert, mapLookup, h2]
      · simp only [mapInsert, if_neg hk]
        by_cases hk' : k0 = k'
        · simp [mapLookup, hk']
        · simp [mapLookup, hk', ih]

theorem classifyStrStep_valid (st : CacheState) (sarr : List String)
    (now : Nat) (ar : Bool) (id : Key) (row : Nat) (acc : StrClassify)
    (hv : (findCellIdx st id now).valid = true) :
    classifyStrStep st sarr now ar id row acc
      = { acc with
          map := strInsertRoutine st sarr id (findCellIdx st id now).cell_idx acc.map,
          hits := acc.hits + 1 } := by
  simp [classifyStrStep, hv]

/-- When the whole key list is valid, the optimistic pass streams every
value and succeeds. -/
theorem optimisticGo_all_valid (st : CacheState) (sarr : List String)
    (now : Nat) (gd : Nat → String) (l : List Key) (row : Nat)
    (acc : List String)
    (h : ∀ j k, l.get? j = some k → (findCellIdx st k now).valid = true) :
    optimisticGo st sarr now gd l row acc
      = some (acc ++ mapWithRow
          (fun r id => strVal st sarr gd r (findCellIdx st id now).cell_idx) row l) := by
  induction l generalizing row acc with
  | nil => simp [optimisticGo, mapWithRow]
  | cons id rest ih =>
      have hv : (findCellIdx st id now).valid = true := h 0 id (by simp)
      have hgo : optimisticGo st sarr now gd (id :: rest) row acc
          = optimisticGo st sarr now gd rest (row + 1)
              (acc ++ [strVal st sarr gd row (findCellIdx st id now).cell_idx]) := by
        simp [optimisticGo, hv]
      rw [hgo, ih (row + 1) _ (fun j k hj => h (j + 1) k (by simpa using hj))]
      simp [mapWithRow]

/-- If the optimistic pass succeeds, every key was valid and the output is
the streamed value list. -/
theorem optimisticGo_some (st : CacheState) (sarr : List String) (now : Nat)
    (gd : Nat → String) (l : List Key) (row : Nat) (acc out : List String)
    (h : optimisticGo st sarr now gd l row acc = some out) :
    (∀ j k, l.get? j = some k → (findCellIdx st k now).valid = true)
    ∧ out = acc ++ mapWithRow
        (fun r id => strVal st sarr gd r (findCellIdx st id now).cell_idx) row l := by
  induction l generalizing row acc with
  | nil =>
      refine ⟨fun j k hj => by simp at hj, ?_⟩
      simp only [optimisticGo] at h
      simp [mapWithRow, ← Option.some.inj h]
  | cons id rest ih =>
      by_cases hv : (findCellIdx st id now).valid = true
      · have hgo : optimisticGo st sarr now gd (id :: rest) row acc
            = optimisticGo st sarr now gd rest (row + 1)
                (acc ++ [strVal st sarr gd row (findCellIdx st id now).cell_idx]) := by
          simp [optimisticGo, hv]
        rw [hgo] at h
        obtain ⟨hvr, hout⟩ := ih (row + 1) _ h
        refine ⟨fun j k hj => ?_, ?_⟩
        · cases j with
          | zero =>
              have : id = k := by simpa using hj
              exact this ▸ hv
          | succ j => exact hvr j k (by simpa using hj)
        · rw [hout]
          simp [mapWithRow]
      · exfalso
        have hgo : optimisticGo st sarr now gd (id :: rest) row acc = none := by
          simp [optimisticGo, hv]
        rw [hgo] at h
        cases h

/-- On an all-valid batch the grouped classify pass records nothing in the
grouping maps and its per-call map holds exactly the non-default cells'
strings. -/
theorem classifyStrGo_all_valid (st : CacheState) (sarr : List String)
    (now : Nat) (ar : Bool) (l : List Key) (row : Nat) (acc : StrClassify)
    (h : ∀ j k, l.get? j = some k → (findCellIdx st k now).valid = true) :
    (classifyStrGo st sarr now ar l row acc).cache_expired_ids
        = acc.cache_expired_ids
    ∧ (classifyStrGo st sarr now ar l row acc).cache_not_found_ids
        = acc.cache_not_found_ids
    ∧ (∀ k, (∃ j, l.get? j = some k) →
        (cellAt st (findCellIdx st k now).cell_idx).is_default = false →
        mapLookup (classifyStrGo st sarr now ar l row acc).map k
          = some (sarr.getD (findCellIdx st k now).cell_idx ""))
    ∧ (∀ k, ((∀ j, l.get? j ≠ some k)
          ∨ (cellAt st (findCellIdx st k now).cell_idx).is_default = true) →
        mapLookup (classifyStrGo st sarr now ar l row acc).map k
          = mapLookup acc.map k) := by
  induction l generalizing row acc with
  | nil =>
      refine ⟨rfl, rfl, fun k hex _ => ?_, fun k _ => rfl⟩
      exfalso
      obtain ⟨j, hj⟩ := hex
      simp at hj
  | cons id rest ih =>
      have hv : (findCellIdx st id now).valid = true := h 0 id (by simp)
      have hgo : classifyStrGo st sarr now ar (id :: rest) row acc
          = classifyStrGo st sarr now ar rest (row + 1)
              (classifyStrStep st sarr now ar id row acc) := rfl
      rw [hgo, classifyStrStep_valid st sarr now ar id row acc hv]
      obtain ⟨e1, e2, m1, m2⟩ := ih (row + 1)
        { acc with
          map := strInsertRoutine st sarr id (findCellIdx st id now).cell_idx acc.map,
          hits := acc.hits + 1 }
        (fun j k hj => h (j + 1) k (by simpa using hj))
      refine ⟨e1, e2, ?_, ?_⟩
      · intro k hex hdef
        by_cases hkrest : ∃ j, rest.get? j = some k
        · exact m1 k hkrest hdef
        · obtain ⟨j, hj⟩ := hex
          have hkid : k = id := by
            cases j with
            | zero => exact (by simpa using hj : id = k).symm
            | succ j => exact absurd ⟨j, by simpa using hj⟩ hkrest
          rw [m2 k (Or.inl (fun j hj2 => hkrest ⟨j, hj2⟩))]
          subst hkid
          simp only [strInsertRoutine, hdef, if_false, Bool.false_eq_true]
          exact mapLookup_mapInsert_same _ _ _
      · intro k hside
        rcases hside with hne | hdef
        · have hkid : ¬ k = id := by
            intro hh
            exact hne 0 (by simp [hh])
          rw [m2 k (Or.inl (fun j hj => hne (j + 1) (by simpa using hj)))]
          simp only [strInsertRoutine]
          split_ifs with hd
          · rfl
          · exact mapLookup_mapInsert_ne _ _ _ _ hkid
        · rw [m2 k (Or.inr hdef)]
          by_cases hkid : k = id
          · subst hkid
            simp [strInsertRoutine, hdef]
          · simp only [strInsertRoutine]
            split_ifs with hd
            · rfl
            · exact mapLookup_mapInsert_ne _ _ _ _ hkid

/-- The final output loop agrees with the streamed optimistic values when
the map holds exactly the non-default strings. -/
theorem finalOut_all_valid (st : CacheState) (sarr : List String)
    (now : Nat) (gd : Nat → String) (m : List (Key × String))
    (l : List Key) (row : Nat)
    (hmap1 : ∀ k, k ∈ l →
        (cellAt st (findCellIdx st k now).cell_idx).is_default = false →
        mapLookup m k = some (sarr.getD (findCellIdx st k now).cell_idx ""))
    (hmap2 : ∀ k, k ∈ l →
        (cellAt st (findCellIdx st k now).cell_idx).is_default = true →
        mapLookup m k = none) :
    finalOut m gd row l
      = mapWithRow
          (fun r id => strVal st sarr gd r (findCellIdx st id now).cell_idx) row l := by
  induction l generalizing row with
  | nil => simp [finalOut, mapWithRow]
  | cons id rest ih =>
      simp only [finalOut, mapWithRow]
      have hhead : (mapLookup m id).getD (gd row)
          = strVal st sarr gd row (findCellIdx st id now).cell_idx := by
        by_cases hd : (cellAt st (findCellIdx st id now).cell_idx).is_default = true
        · rw [hmap2 id (by simp) hd]
          simp [strVal, hd]
        · have hd' : (cellAt st (findCellIdx st id now).cell_idx).is_default = false := by
            simpa using hd
          rw [hmap1 id (by simp) hd']
          simp [strVal, hd']
      rw [hhead, ih (row + 1)
        (fun k hk hdef => hmap1 k (List.mem_cons_of_mem _ hk) hdef)
        (fun k hk hdef => hmap2 k (List.mem_cons_of_mem _ hk) hdef)]

/-- C6: the string-typed lookup is a refinement of the grouped algorithm.
The optimistic pass never changes the outcome: `getItemsString` equals the
grouped algorithm on every batch (when the optimistic pass aborts, the
partial output is discarded and the grouped algorithm simply runs); and on
an all-hit batch the result is exactly the streamed map-free output with no
update unit pushed. -/
theorem spec_C6_optimistic_refinement (st : CacheState) (attrIdx : Nat)
    (now now2 : Nat) (ids : List Key) (gd : Nat → String) (ar room : Bool)
    (post : CacheState) (mask : Key → Bool) :
    getItemsString st attrIdx now now2 ids gd ar room post mask
      = stringGroupedCore st attrIdx now now2 ids gd ar room post mask
    ∧ ((∀ j k, ids.get? j = some k → (findCellIdx st k now).valid = true) →
        getItemsString st attrIdx now now2 ids gd ar room post mask
          = ⟨.ok (mapWithRow
              (fun r id => strVal st (strArrOf st attrIdx) gd r
                (findCellIdx st id now).cell_idx) 0 ids),
              [], false, false⟩) := by
  have hcore : ∀ _hv : (∀ j k, ids.get? j = some k →
      (findCellIdx st k now).valid = true),
      stringGroupedCore st attrIdx now now2 ids gd ar room post mask
        = ⟨.ok (mapWithRow
            (fun r id => strVal st (strArrOf st attrIdx) gd r
              (findCellIdx st id now).cell_idx) 0 ids),
            [], false, false⟩ := by
    intro hv
    obtain ⟨e1, e2, m1, m2⟩ := classifyStrGo_all_valid st (strArrOf st attrIdx)
      now ar ids 0 ⟨[], [], [], 0⟩ hv
    have hfin : finalOut (classifyStr st (strArrOf st attrIdx) now ar ids).map gd 0 ids
        = mapWithRow
            (fun r id => strVal st (strArrOf st attrIdx) gd r
              (findCellIdx st id now).cell_idx) 0 ids := by
      apply finalOut_all_valid
      · intro k hk hdef
        obtain ⟨j, hj⟩ := List.mem_iff_get?.1 hk
        exact m1 k ⟨j, hj⟩ hdef
      · intro k hk hdef
        obtain ⟨j, hj⟩ := List.mem_iff_get?.1 hk
        have := m2 k (Or.inr hdef)
        simpa [mapLookup] using this
    have hE : (classifyStr st (strArrOf st attrIdx) now ar ids).cache_expired_ids = [] := e1
    have hN : (classifyStr st (strArrOf st attrIdx) now ar ids).cache_not_found_ids = [] := e2
    simp [stringGroupedCore, hE, hN, hfin]
  constructor
  · cases hopt : optimisticGo st (strArrOf st attrIdx) now gd ids 0 [] with
    | none => simp [getItemsString, hopt]
    | some o =>
        obtain ⟨hv, ho⟩ := optimisticGo_some st (strArrOf st attrIdx) now gd
          ids 0 [] o hopt
        have hlhs : getItemsString st attrIdx now now2 ids gd ar room post mask
            = ⟨.ok o, [], false, false⟩ := by
          simp [getItemsString, hopt]
        rw [hlhs, hcore hv, ho]
        simp
  · intro hv
    have hopt := optimisticGo_all_valid st (strArrOf st attrIdx) now gd ids 0 [] hv
    simp [getItemsString, hopt]

/-- Witness for C6: on the all-hit batch `[5]` against `stH`, the lookup
returns the streamed string `"a"` with no unit pushed. -/
theorem spec_C6_optimistic_refinement_witness :
    getItemsString stH 0 20 20 [5] (fun _ => "d") true true stH (fun _ => true)
      = ⟨.ok (mapWithRow
          (fun r id => strVal stH (strArrOf stH 0) (fun _ => "d") r
            (findCellIdx stH id 20).cell_idx) 0 [5]),
          [], false, false⟩ :=
  (spec_C6_optimistic_refinement stH 0 20 20 [5] (fun _ => "d") true true stH
    (fun _ => true)).2
    (by
      intro j k hj
      cases j with
      | zero =>
          have : (5 : Key) = k := by simpa using hj
          subst this
          decide
      | succ j => simp at hj)

end CacheDict
